import Mathlib

/-!
# Verification of `fp_edf_scheduler.py`

Shallow embedding of the hybrid FP/EDF SimSo scheduling policy defined in
`src/fp_edf_scheduler.py`, together with theorems settling the behavioural
claims about its ready-set bookkeeping and its `schedule` decision rule.

Modelling conventions:
* A SimSo `Job` is reduced to the three attributes the policy reads:
  an identity, `job.data['priority']` (a Python `int`, embedded as `Int`)
  and `job.absolute_deadline` (embedded as `Int`).
* The scheduler object carries exactly the state the source mutates:
  `self.ready_list`, a Python list embedded as `List Job` (Python list
  order = insertion order, since the source only ever appends).
* `job.cpu.resched()` calls are host-directed side effects that do not
  touch the ready list; they are not modelled.
* Python's `min(iterable, key=...)` keeps the current champion on ties,
  so it returns the first element attaining the minimal key; `pymin1`
  embeds it (on a nonempty list given as head and tail).
* Python's `list.remove(x)` deletes the first occurrence of `x` and
  raises `ValueError`, leaving the list unmodified, when `x` is absent;
  `removeFirst` embeds it, with `none` standing for the raised exception.
* `schedule` can exit through `return (job, cpu)` (a decision pair,
  where `job` may be Python `None`) or through the bare `return None` of
  the invalid-priority branch; its result type is therefore
  `Option (Option Job × Proc)`, with the outer `none` standing for the
  bare `None` and the inner `Option` for the `job`-or-`None` component.
  The `logging.debug`/`logging.error` calls are diagnostics with no
  effect on state or result and are not modelled.
-/

/-- A SimSo job, reduced to the attributes `fp_edf_scheduler` reads:
`priority` embeds `job.data['priority']` and `absolute_deadline` embeds
`job.absolute_deadline`. `id` distinguishes job instances. -/
structure Job where
  id : Nat
  priority : Int
  absolute_deadline : Int
deriving DecidableEq, Repr

/-- An opaque processor handle (the `cpu` argument of `schedule`). -/
abbrev Proc := Nat

/-- Python `min(x :: xs, key=key)`: fold over the tail keeping the current
champion unless the new element's key is strictly smaller, so the first
element attaining the minimal key wins. -/
def pymin1 (key : Job → Int) (x : Job) (xs : List Job) : Job :=
  xs.foldl (fun best y => if key y < key best then y else best) x

/-- Python `l.remove(j)`: `some l'` removes the first occurrence of `j`
from `l`; `none` embeds the `ValueError` raised when `j` is absent (in
which case CPython leaves the list unmodified). -/
def removeFirst (l : List Job) (j : Job) : Option (List Job) :=
  match l with
  | [] => none
  | x :: xs => if x = j then some xs else (removeFirst xs j).map (fun t => x :: t)

/-- The scheduler object: its only state is `self.ready_list`
(created empty by `init`). -/
structure fp_edf_scheduler where
  ready_list : List Job
deriving DecidableEq, Repr

namespace fp_edf_scheduler

/-- `init` (src lines 35-42): `self.ready_list = []`. -/
def init : fp_edf_scheduler := ⟨[]⟩

/-- `on_activate` (src lines 44-54): `self.ready_list.append(job)`.
The trailing `job.cpu.resched()` is a host-directed reschedule request
that does not touch the ready list. -/
def on_activate (s : fp_edf_scheduler) (job : Job) : fp_edf_scheduler :=
  ⟨s.ready_list ++ [job]⟩

/-- `on_terminated` (src lines 56-66): `self.ready_list.remove(job)`.
Returns the object state after the call together with a completion flag:
`false` means `list.remove` raised `ValueError` (job absent), which
propagates out of `on_terminated` uncaught, with the ready list left
exactly as it was (CPython raises before any mutation). -/
def on_terminated (s : fp_edf_scheduler) (job : Job) : fp_edf_scheduler × Bool :=
  match removeFirst s.ready_list job with
  | some l => (⟨l⟩, true)
  | none => (s, false)

/-- `schedule` (src lines 68-108). Result: the returned value paired with
the object state after the call (the body never assigns `self.ready_list`,
so every exit returns `s` unchanged).
* nonempty ready list: `prio_low` is the minimal `data['priority']`;
  if `prio_low >= 1 and prio_low < 127` the FP branch returns
  `(min(ready_list, key=priority), cpu)`; elif `prio_low == 127` the EDF
  branch returns `(min(ready_list, key=absolute_deadline), cpu)`; else the
  invalid-priority branch logs an error and executes the bare `return None`.
* empty ready list: `job = None` and `return (job, cpu)`. -/
def schedule (s : fp_edf_scheduler) (cpu : Proc) : Option (Option Job × Proc) × fp_edf_scheduler :=
  match s.ready_list with
  | x :: xs =>
    let prio_low := (pymin1 Job.priority x xs).priority
    if 1 ≤ prio_low ∧ prio_low < 127 then
      (some (some (pymin1 Job.priority x xs), cpu), s)
    else if prio_low = 127 then
      (some (some (pymin1 Job.absolute_deadline x xs), cpu), s)
    else
      (none, s)
  | [] => (some (none, cpu), s)

end fp_edf_scheduler

/-! ## Auxiliary lemmas about the embedded Python primitives -/

theorem pymin1_cons (key : Job → Int) (x y : Job) (ys : List Job) :
    pymin1 key x (y :: ys) = pymin1 key (if key y < key x then y else x) ys := rfl

/-- The champion of Python `min` has a key no larger than any element's. -/
theorem pymin1_le (key : Job → Int) (x : Job) (xs : List Job) :
    ∀ y ∈ x :: xs, key (pymin1 key x xs) ≤ key y := by
  induction xs generalizing x with
  | nil =>
    intro y hy
    rcases List.mem_cons.mp hy with hyx | hy0
    · rw [hyx]
      exact le_refl (key x)
    · exact absurd hy0 (List.not_mem_nil y)
  | cons z zs ih =>
    intro y hy
    rw [pymin1_cons]
    by_cases hzx : key z < key x
    · rw [if_pos hzx]
      rcases List.mem_cons.mp hy with hyx | hy2
      -- `y = x`: the champion is ≤ the new seed `z`, itself < `x`.
      · rw [hyx]
        exact le_of_lt (lt_of_le_of_lt (ih z z (List.mem_cons_self z zs)) hzx)
      · exact ih z y hy2
    · rw [if_neg hzx]
      push_neg at hzx
      rcases List.mem_cons.mp hy with hyx | hy2
      · rw [hyx]
        exact ih x x (List.mem_cons_self x zs)
      · rcases List.mem_cons.mp hy2 with hyz | hy3
        · rw [hyz]
          exact le_trans (ih x x (List.mem_cons_self x zs)) hzx
        · exact ih x y (List.mem_cons_of_mem x hy3)

/-- The champion of Python `min` is an element of the list. -/
theorem pymin1_mem (key : Job → Int) (x : Job) (xs : List Job) :
    pymin1 key x xs ∈ x :: xs := by
  induction xs generalizing x with
  | nil => exact List.mem_cons_self x []
  | cons z zs ih =>
    rw [pymin1_cons]
    by_cases hzx : key z < key x
    · rw [if_pos hzx]
      exact List.mem_cons_of_mem x (ih z)
    · rw [if_neg hzx]
      rcases List.mem_cons.mp (ih x) with h | h
      · exact List.mem_cons.mpr (Or.inl h)
      · exact List.mem_cons_of_mem x (List.mem_cons_of_mem z h)

/-- Python `min` returns the FIRST element attaining the minimal key:
the list splits around the champion, everything inserted earlier has a
strictly larger key, and everything after has a key at least as large. -/
theorem pymin1_split (key : Job → Int) (x : Job) (xs : List Job) :
    ∃ l1 l2, x :: xs = l1 ++ pymin1 key x xs :: l2 ∧
      (∀ y ∈ l1, key (pymin1 key x xs) < key y) ∧
      (∀ y ∈ l2, key (pymin1 key x xs) ≤ key y) := by
  induction xs generalizing x with
  | nil =>
    refine ⟨[], [], rfl, ?_, ?_⟩
    · intro y hy
      exact absurd hy (List.not_mem_nil y)
    · intro y hy
      exact absurd hy (List.not_mem_nil y)
  | cons z zs ih =>
    rw [pymin1_cons]
    by_cases hzx : key z < key x
    · rw [if_pos hzx]
      obtain ⟨l1, l2, hdec, hstrict, hge⟩ := ih z
      refine ⟨x :: l1, l2, ?_, ?_, hge⟩
      · rw [List.cons_append, ← hdec]
      · intro y hy
        rcases List.mem_cons.mp hy with hyx | hy2
        · rw [hyx]
          exact lt_of_le_of_lt (pymin1_le key z zs z (List.mem_cons_self z zs)) hzx
        · exact hstrict y hy2
    · rw [if_neg hzx]
      push_neg at hzx
      obtain ⟨l1, l2, hdec, hstrict, hge⟩ := ih x
      cases l1 with
      | nil =>
        -- the champion of `x :: zs` is `x` itself
        rw [List.nil_append] at hdec
        injection hdec with hx hzs
        refine ⟨[], z :: l2, ?_, ?_, ?_⟩
        · rw [List.nil_append, ← hx, ← hzs]
        · intro y hy
          exact absurd hy (List.not_mem_nil y)
        · intro y hy
          rcases List.mem_cons.mp hy with hyz | hy2
          · rw [hyz]
            exact le_trans (le_of_eq (congrArg key hx.symm)) hzx
          · exact hge y hy2
      | cons a l1t =>
        rw [List.cons_append] at hdec
        injection hdec with hx hzs
        refine ⟨x :: z :: l1t, l2, ?_, ?_, hge⟩
        · rw [List.cons_append, List.cons_append, ← hzs]
        · intro y hy
          have hax : key (pymin1 key x zs) < key x := by
            have h1 := hstrict a (List.mem_cons_self a l1t)
            rw [← hx] at h1
            exact h1
          rcases List.mem_cons.mp hy with hyx | hy2
          · rw [hyx]
            exact hax
          · rcases List.mem_cons.mp hy2 with hyz | hy3
            · rw [hyz]
              exact lt_of_lt_of_le hax hzx
            · exact hstrict y (List.mem_cons_of_mem a hy3)

/-- Removing an absent job raises `ValueError` (`none`). -/
theorem removeFirst_not_mem (l : List Job) (j : Job) (h : j ∉ l) :
    removeFirst l j = none := by
  induction l with
  | nil => rfl
  | cons x xs ih =>
    have hxj : ¬ x = j := fun he => h (he ▸ List.mem_cons_self x xs)
    have hjxs : j ∉ xs := fun hm => h (List.mem_cons_of_mem x hm)
    simp [removeFirst, hxj, ih hjxs]

/-- Removing a freshly appended job (absent before the append) deletes
exactly that trailing occurrence and restores the original list. -/
theorem removeFirst_append_singleton (l : List Job) (j : Job) (h : j ∉ l) :
    removeFirst (l ++ [j]) j = some l := by
  induction l with
  | nil => simp [removeFirst]
  | cons x xs ih =>
    have hxj : ¬ x = j := fun he => h (he ▸ List.mem_cons_self x xs)
    have hjxs : j ∉ xs := fun hm => h (List.mem_cons_of_mem x hm)
    simp [removeFirst, hxj, ih hjxs]

/-- Unfolding `schedule` on a nonempty ready list. -/
theorem schedule_cons (x : Job) (xs : List Job) (cpu : Proc) :
    fp_edf_scheduler.schedule ⟨x :: xs⟩ cpu =
      (if 1 ≤ (pymin1 Job.priority x xs).priority ∧ (pymin1 Job.priority x xs).priority < 127 then
        (some (some (pymin1 Job.priority x xs), cpu), ⟨x :: xs⟩)
      else if (pymin1 Job.priority x xs).priority = 127 then
        (some (some (pymin1 Job.absolute_deadline x xs), cpu), ⟨x :: xs⟩)
      else
        (none, ⟨x :: xs⟩)) := rfl

/-! ## Claims -/

/-- Claim C1: for every non-empty ready set in which every ready job has
priority in [1,126], `schedule` returns a decision whose job attains the
minimal priority value among all jobs in the ready set. -/
theorem schedule_fp_returns_min_priority (x : Job) (xs : List Job) (cpu : Proc)
    (h : ∀ j ∈ x :: xs, 1 ≤ j.priority ∧ j.priority ≤ 126) :
    ∃ job, (fp_edf_scheduler.schedule ⟨x :: xs⟩ cpu).1 = some (some job, cpu) ∧
      job ∈ x :: xs ∧ ∀ k ∈ x :: xs, job.priority ≤ k.priority := by
  have hmem := pymin1_mem Job.priority x xs
  obtain ⟨h1, h2⟩ := h _ hmem
  have hcond : 1 ≤ (pymin1 Job.priority x xs).priority ∧
      (pymin1 Job.priority x xs).priority < 127 := ⟨h1, by omega⟩
  refine ⟨pymin1 Job.priority x xs, ?_, hmem, pymin1_le Job.priority x xs⟩
  rw [schedule_cons, if_pos hcond]

/-- Witness for C1: jobs with priorities 5 and 3; the priority-3 job wins. -/
theorem schedule_fp_returns_min_priority_witness :
    ∃ job, (fp_edf_scheduler.schedule ⟨[⟨0, 5, 10⟩, ⟨1, 3, 20⟩]⟩ 0).1 = some (some job, 0) ∧
      job ∈ [(⟨0, 5, 10⟩ : Job), ⟨1, 3, 20⟩] ∧
      ∀ k ∈ [(⟨0, 5, 10⟩ : Job), ⟨1, 3, 20⟩], job.priority ≤ k.priority :=
  schedule_fp_returns_min_priority ⟨0, 5, 10⟩ [⟨1, 3, 20⟩] 0 (by decide)

/-- Claim C2: for every non-empty ready set in which every ready job has
priority exactly 127, `schedule` returns a decision whose job has the
minimal absolute deadline among all jobs in the ready set. -/
theorem schedule_edf_returns_min_deadline (x : Job) (xs : List Job) (cpu : Proc)
    (h : ∀ j ∈ x :: xs, j.priority = 127) :
    ∃ job, (fp_edf_scheduler.schedule ⟨x :: xs⟩ cpu).1 = some (some job, cpu) ∧
      job ∈ x :: xs ∧ ∀ k ∈ x :: xs, job.absolute_deadline ≤ k.absolute_deadline := by
  have hp : (pymin1 Job.priority x xs).priority = 127 := h _ (pymin1_mem Job.priority x xs)
  have hcond : ¬(1 ≤ (pymin1 Job.priority x xs).priority ∧
      (pymin1 Job.priority x xs).priority < 127) := by
    rw [hp]
    omega
  refine ⟨pymin1 Job.absolute_deadline x xs, ?_, pymin1_mem Job.absolute_deadline x xs,
    pymin1_le Job.absolute_deadline x xs⟩
  rw [schedule_cons, if_neg hcond, if_pos hp]

/-- Witness for C2: two priority-127 jobs with deadlines 20 and 15; the
deadline-15 job wins. -/
theorem schedule_edf_returns_min_deadline_witness :
    ∃ job, (fp_edf_scheduler.schedule ⟨[⟨0, 127, 20⟩, ⟨1, 127, 15⟩]⟩ 0).1 = some (some job, 0) ∧
      job ∈ [(⟨0, 127, 20⟩ : Job), ⟨1, 127, 15⟩] ∧
      ∀ k ∈ [(⟨0, 127, 20⟩ : Job), ⟨1, 127, 15⟩], job.absolute_deadline ≤ k.absolute_deadline :=
  schedule_edf_returns_min_deadline ⟨0, 127, 20⟩ [⟨1, 127, 15⟩] 0 (by decide)

/-- Counterexample to C3 as stated: a single ready job with the default
priority 0 takes the invalid-priority branch, whose `return None` yields
the bare `None`, NOT the decision pair `(None, processor)`. -/
theorem schedule_invalid_priority_counterexample :
    (fp_edf_scheduler.schedule ⟨[⟨0, 0, 10⟩]⟩ 0).1 = none ∧
    (fp_edf_scheduler.schedule ⟨[⟨0, 0, 10⟩]⟩ 0).1 ≠ some (none, 0) := by
  decide

/-- Claim C3 (amended): whenever the minimal priority of a non-empty ready
set lies outside [1,127], `schedule` takes the invalid-priority branch and
returns the bare `None` (no decision pair at all) rather than
`(none, processor)`; it does not raise, and the ready list is untouched. -/
theorem schedule_invalid_priority_returns_bare_none (x : Job) (xs : List Job) (cpu : Proc)
    (h : (pymin1 Job.priority x xs).priority < 1 ∨ 127 < (pymin1 Job.priority x xs).priority) :
    (fp_edf_scheduler.schedule ⟨x :: xs⟩ cpu).1 = none ∧
    (fp_edf_scheduler.schedule ⟨x :: xs⟩ cpu).2 = ⟨x :: xs⟩ := by
  have hc1 : ¬(1 ≤ (pymin1 Job.priority x xs).priority ∧
      (pymin1 Job.priority x xs).priority < 127) := by
    rcases h with h | h <;> omega
  have hc2 : ¬((pymin1 Job.priority x xs).priority = 127) := by
    rcases h with h | h <;> omega
  rw [schedule_cons, if_neg hc1, if_neg hc2]
  exact ⟨rfl, rfl⟩

/-- Witness for the amended C3: the single default-priority-0 job. -/
theorem schedule_invalid_priority_returns_bare_none_witness :
    (fp_edf_scheduler.schedule ⟨[⟨0, 0, 10⟩]⟩ 0).1 = none ∧
    (fp_edf_scheduler.schedule ⟨[⟨0, 0, 10⟩]⟩ 0).2 = ⟨[⟨0, 0, 10⟩]⟩ :=
  schedule_invalid_priority_returns_bare_none ⟨0, 0, 10⟩ [] 0 (by decide)

/-- Claim C4: on an empty ready set, `schedule` returns the decision
`(none, processor)` for every processor argument, through the normal
`return (job, cpu)` exit rather than any error path. -/
theorem schedule_empty_ready_set (cpu : Proc) :
    (fp_edf_scheduler.schedule ⟨[]⟩ cpu).1 = some (none, cpu) := rfl

/-- Claim C5 (code bug): two distinct jobs tied at priority 5. The call
returns the first-inserted job AND leaves the ready list unchanged, so by
purity of the decision every repeated call returns that same job — the
choice never rotates to the other tied job, contradicting the Round Robin
behaviour promised by the module's own docstring. -/
theorem schedule_tied_priority_never_rotates :
    (fp_edf_scheduler.schedule ⟨[⟨0, 5, 10⟩, ⟨1, 5, 20⟩]⟩ 0).1 = some (some ⟨0, 5, 10⟩, 0) ∧
    (fp_edf_scheduler.schedule ⟨[⟨0, 5, 10⟩, ⟨1, 5, 20⟩]⟩ 0).2 = ⟨[⟨0, 5, 10⟩, ⟨1, 5, 20⟩]⟩ ∧
    (⟨0, 5, 10⟩ : Job) ≠ (⟨1, 5, 20⟩ : Job) := by
  decide

/-- Claim C6: if some ready job has priority in [1,126], `schedule` never
dispatches a priority-127 (EDF-regime) job: either the FP branch picks a
job of minimal priority (≤ 126), or the invalid-priority branch returns
no job at all. -/
theorem schedule_never_dispatches_prio127 (x : Job) (xs : List Job) (cpu : Proc)
    (h : ∃ j ∈ x :: xs, 1 ≤ j.priority ∧ j.priority ≤ 126) :
    ¬ ∃ job : Job, (fp_edf_scheduler.schedule ⟨x :: xs⟩ cpu).1 = some (some job, cpu) ∧
      job.priority = 127 := by
  rintro ⟨job, heq, h127⟩
  obtain ⟨w, hw, hw1, hw2⟩ := h
  have hple : (pymin1 Job.priority x xs).priority ≤ w.priority :=
    pymin1_le Job.priority x xs w hw
  rw [schedule_cons] at heq
  by_cases hc : 1 ≤ (pymin1 Job.priority x xs).priority ∧
      (pymin1 Job.priority x xs).priority < 127
  · rw [if_pos hc] at heq
    have h2 : (some (some (pymin1 Job.priority x xs), cpu) : Option (Option Job × Proc)) =
        some (some job, cpu) := heq
    simp only [Option.some.injEq, Prod.mk.injEq] at h2
    have hj : pymin1 Job.priority x xs = job := h2.1
    rw [← hj] at h127
    omega
  · have hlt : ¬((pymin1 Job.priority x xs).priority = 127) := by omega
    rw [if_neg hc, if_neg hlt] at heq
    exact Option.noConfusion heq

/-- Witness for C6: a lone priority-5 job; no priority-127 job can be the
decision. -/
theorem schedule_never_dispatches_prio127_witness :
    ¬ ∃ job : Job, (fp_edf_scheduler.schedule ⟨[⟨0, 5, 10⟩]⟩ 0).1 = some (some job, 0) ∧
      job.priority = 127 :=
  schedule_never_dispatches_prio127 ⟨0, 5, 10⟩ [] 0
    ⟨⟨0, 5, 10⟩, by decide, by decide, by decide⟩

/-- Claim C7: `schedule` never mutates the ready set: the object state
after any `schedule` call equals the state before it, on every branch
(FP, EDF, invalid priority, empty list). -/
theorem schedule_preserves_ready_list (s : fp_edf_scheduler) (cpu : Proc) :
    (fp_edf_scheduler.schedule s cpu).2 = s := by
  obtain ⟨l⟩ := s
  cases l with
  | nil => rfl
  | cons x xs =>
    rw [schedule_cons]
    split_ifs <;> rfl

/-- Claim C8: `on_terminated` on a job absent from the ready set raises
`ValueError` (completion flag `false`, the error propagates uncaught) and
leaves the ready set exactly unchanged. -/
theorem on_terminated_absent_job_errors (s : fp_edf_scheduler) (job : Job)
    (h : job ∉ s.ready_list) :
    fp_edf_scheduler.on_terminated s job = (s, false) := by
  unfold fp_edf_scheduler.on_terminated
  rw [removeFirst_not_mem s.ready_list job h]

/-- Witness for C8: terminating an absent job on a one-job ready list. -/
theorem on_terminated_absent_job_errors_witness :
    fp_edf_scheduler.on_terminated ⟨[⟨1, 3, 4⟩]⟩ ⟨0, 5, 10⟩ = (⟨[⟨1, 3, 4⟩]⟩, false) :=
  on_terminated_absent_job_errors ⟨[⟨1, 3, 4⟩]⟩ ⟨0, 5, 10⟩ (by decide)

/-- Claim C9: activating a job not currently ready and then immediately
terminating it restores the ready set exactly (the append put the job at
the tail; `list.remove` deletes its first — and only — occurrence). -/
theorem activate_then_terminate_roundtrip (s : fp_edf_scheduler) (job : Job)
    (h : job ∉ s.ready_list) :
    fp_edf_scheduler.on_terminated (fp_edf_scheduler.on_activate s job) job = (s, true) := by
  obtain ⟨l⟩ := s
  show fp_edf_scheduler.on_terminated ⟨l ++ [job]⟩ job = (⟨l⟩, true)
  unfold fp_edf_scheduler.on_terminated
  rw [removeFirst_append_singleton l job h]

/-- Witness for C9: round trip of a fresh job over a one-job ready list. -/
theorem activate_then_terminate_roundtrip_witness :
    fp_edf_scheduler.on_terminated
      (fp_edf_scheduler.on_activate ⟨[⟨1, 3, 4⟩]⟩ ⟨0, 5, 10⟩) ⟨0, 5, 10⟩ = (⟨[⟨1, 3, 4⟩]⟩, true) :=
  activate_then_terminate_roundtrip ⟨[⟨1, 3, 4⟩]⟩ ⟨0, 5, 10⟩ (by decide)

/-- Claim C10: in both regimes the tie-break is deterministic by insertion
order: the ready list splits as `l1 ++ job :: l2` around the dispatched
job, every earlier-inserted job has a strictly larger key (priority in the
FP regime, absolute deadline in the EDF regime) — so among tied jobs the
earliest-inserted wins — and the dispatched job's key is minimal over the
whole list; the decision is a pure function of the ready list, so repeated
calls on an unchanged list return this same job. -/
theorem schedule_tiebreak_insertion_order (x : Job) (xs : List Job) (cpu : Proc) :
    (1 ≤ (pymin1 Job.priority x xs).priority ∧ (pymin1 Job.priority x xs).priority < 127 →
      ∃ l1 job l2, x :: xs = l1 ++ job :: l2 ∧
        (fp_edf_scheduler.schedule ⟨x :: xs⟩ cpu).1 = some (some job, cpu) ∧
        (∀ y ∈ l1, job.priority < y.priority) ∧
        (∀ y ∈ x :: xs, job.priority ≤ y.priority)) ∧
    ((pymin1 Job.priority x xs).priority = 127 →
      ∃ l1 job l2, x :: xs = l1 ++ job :: l2 ∧
        (fp_edf_scheduler.schedule ⟨x :: xs⟩ cpu).1 = some (some job, cpu) ∧
        (∀ y ∈ l1, job.absolute_deadline < y.absolute_deadline) ∧
        (∀ y ∈ x :: xs, job.absolute_deadline ≤ y.absolute_deadline)) := by
  constructor
  · intro hc
    obtain ⟨l1, l2, hdec, hstrict, _⟩ := pymin1_split Job.priority x xs
    refine ⟨l1, pymin1 Job.priority x xs, l2, hdec, ?_, hstrict, pymin1_le Job.priority x xs⟩
    rw [schedule_cons, if_pos hc]
  · intro h127
    have hc : ¬(1 ≤ (pymin1 Job.priority x xs).priority ∧
        (pymin1 Job.priority x xs).priority < 127) := by
      rw [h127]
      omega
    obtain ⟨l1, l2, hdec, hstrict, _⟩ := pymin1_split Job.absolute_deadline x xs
    refine ⟨l1, pymin1 Job.absolute_deadline x xs, l2, hdec, ?_, hstrict,
      pymin1_le Job.absolute_deadline x xs⟩
    rw [schedule_cons, if_neg hc, if_pos h127]

/-- Witness for C10 (FP regime): two jobs tied at priority 5; the split
certifies the first-inserted tied job is the one dispatched. -/
theorem schedule_tiebreak_insertion_order_witness :
    ∃ l1 job l2, ([⟨0, 5, 10⟩, ⟨1, 5, 20⟩] : List Job) = l1 ++ job :: l2 ∧
      (fp_edf_scheduler.schedule ⟨[⟨0, 5, 10⟩, ⟨1, 5, 20⟩]⟩ 0).1 = some (some job, 0) ∧
      (∀ y ∈ l1, job.priority < y.priority) ∧
      (∀ y ∈ [(⟨0, 5, 10⟩ : Job), ⟨1, 5, 20⟩], job.priority ≤ y.priority) :=
  (schedule_tiebreak_insertion_order ⟨0, 5, 10⟩ [⟨1, 5, 20⟩] 0).1 (by decide)
